import Mathlib

/-!
A shallow embedding of `src/infix_postfix_evaluator.py`: the tokenizer,
structural validator, the two shunting-yard converters (infix → postfix and
infix → prefix) and the two stack evaluators, together with theorems checking
the specification's claims about them.

Modelling conventions:
* Python strings are Lean `String`s; character classes (`str.isdigit`,
  whitespace) are modelled on their ASCII fragment (`Char.isDigit`,
  `Char.isWhitespace`), which is exact for every input built from the
  program's own token alphabet.
* Python exceptions become `Except` values.  The distinct `raise` sites of the
  evaluators are told apart by the `EvalErr` type (`ValueError` for a
  malformed expression, `ZeroDivisionError`, `ValueError` for an unknown
  operator), and those of the validator by `ValErr` (each constructor carries
  the 1-based position reported in the Python error message).
* Python numbers in the evaluators (ints, turning into floats after a
  division) are modelled as `ℚ`; `round(x, 6)` is modelled as exact rational
  rounding to six fractional digits with round-half-to-even tie-breaking,
  which agrees with Python away from floating-point ties.
-/

namespace InfixEval

/-! ## Token-level character and string classes -/

/-- Python `str.isdigit()` for one character (ASCII fragment): `'0' ≤ c ≤ '9'`. -/
def isDigitChar (c : Char) : Bool := c.isDigit

/-- Python `token.isdigit()` on a whole token: nonempty and all digits. -/
def pyIsDigit (s : String) : Bool := !s.data.isEmpty && s.data.all isDigitChar

/-- Whether the first character list starts the second. -/
def listPre : List Char → List Char → Bool
  | [], _ => true
  | _ :: _, [] => false
  | a :: as, b :: bs => a = b && listPre as bs

/-- Whether the first character list occurs contiguously in the second. -/
def listSub (pat : List Char) : List Char → Bool
  | [] => listPre pat []
  | b :: bs => listPre pat (b :: bs) || listSub pat bs

/-- Python's substring test `t in s`. -/
def pyIn (t s : String) : Bool := listSub t.data s.data

/-- Python `int(token)` for a digit-only token. -/
def digitsToNat (s : String) : Nat :=
  s.data.foldl (fun n c => 10 * n + (c.toNat - 48)) 0

/-- Membership in the `bracket_map` of `tokenize` (ASCII and full-width). -/
def isBracketChar (c : Char) : Bool :=
  c = '(' || c = ')' || c = '（' || c = '）'

/-- The lookup `bracket_map[char]`: normalize a bracket to its ASCII form. -/
def mapBracket (c : Char) : String :=
  if c = '(' || c = '（' then "(" else ")"

/-- Membership in `valid_operators = {'+', '-', '*', '/'}`. -/
def isOpChar (c : Char) : Bool :=
  c = '+' || c = '-' || c = '*' || c = '/'

/-! ## Tokenizer (`tokenize`, source lines 246–299) -/

/-- The test guarding the implicit-zero insertion for `-` in `tokenize`:
`i == 0 or not num_buffer and (tokens and tokens[-1] in '(+' or not tokens)`,
with Python's operator precedence made explicit. -/
def zeroCond (i : Nat) (tokens : List String) (buf : List Char) : Bool :=
  i = 0 ||
    (buf.isEmpty &&
      ((!tokens.isEmpty && pyIn (tokens.getLast!) "(+") || tokens.isEmpty))

/-- Flush the pending digit buffer into the token list (`if num_buffer: ...`). -/
def flushBuf (tokens : List String) (buf : List Char) : List String :=
  if buf.isEmpty then tokens else tokens ++ [String.mk buf]

/-- The character loop of `tokenize`, over the space-stripped character list.
`i` is the current index in the stripped expression; an invalid character at
index `i` raises `ValueError` reporting position `i + 1`. -/
def tokenizeLoop : List Char → Nat → List String → List Char →
    Except Nat (List String)
  | [], _, tokens, buf => .ok (flushBuf tokens buf)
  | c :: cs, i, tokens, buf =>
    if isDigitChar c then
      tokenizeLoop cs (i + 1) tokens (buf ++ [c])
    else
      let t0 := if c = '-' && zeroCond i tokens buf then tokens ++ ["0"]
        else tokens
      let t1 := flushBuf t0 buf
      if isBracketChar c then tokenizeLoop cs (i + 1) (t1 ++ [mapBracket c]) []
      else if isOpChar c then
        tokenizeLoop cs (i + 1) (t1 ++ [String.singleton c]) []
      else .error (i + 1)

/-- The function `tokenize(expression)`: strip all `' '` characters
(`expression.replace(' ', '')`), then scan.  The error value is the 1-based
position (in the stripped expression) of the offending character. -/
def tokenize (expression : String) : Except Nat (List String) :=
  tokenizeLoop (expression.data.filter (fun c => c ≠ ' ')) 0 [] []

/-! ## Validator (`validate_expression`, source lines 215–243) -/

/-- The three `ValueError`s of `validate_expression`, each carrying the
1-based position appearing in its message. -/
inductive ValErr where
  | extraRight (pos : Nat)
  | missingRight (pos : Nat)
  | misplacedOp (pos : Nat)
deriving DecidableEq

/-- The bracket-matching scan of `validate_expression`: push the index of
each `'('`, pop on `')'`, failing on a `')'` with an empty stack.  Returns the
stack of indices of unclosed `'('` (most recent first). -/
def parenScan : List String → Nat → List Nat → Except ValErr (List Nat)
  | [], _, st => .ok st
  | t :: ts, i, st =>
    if t = "(" then parenScan ts (i + 1) (i :: st)
    else if t = ")" then
      match st with
      | [] => .error (.extraRight (i + 1))
      | _ :: st1 => parenScan ts (i + 1) st1
    else parenScan ts (i + 1) st

/-- The operator-adjacency scan of `validate_expression`:
`tokens[i] in '+-*/' and tokens[i-1] in '+-*/('` reports position `i + 1`.
The argument `i` is the index of the second token of the current pair. -/
def opPairScan : List String → Nat → Except ValErr Unit
  | t1 :: t2 :: ts, i =>
    if pyIn t2 "+-*/" && pyIn t1 "+-*/(" then .error (.misplacedOp (i + 1))
    else opPairScan (t2 :: ts) (i + 1)
  | _, _ => .ok ()

/-- The function `validate_expression(tokens)`: bracket balance first (reporting the
position of the `stack.peek()` unclosed `'('` if any remain), then operator
adjacency. -/
def validate_expression (tokens : List String) : Except ValErr Unit := do
  let st ← parenScan tokens 0 []
  match st with
  | pos :: _ => .error (.missingRight (pos + 1))
  | [] => opPairScan tokens 1

/-! ## Converters (`infix_to_postfix` lines 302–351, `infix_to_prefix`
lines 354–410) -/

/-- The table `precedence = {'+': 2, '-': 2, '*': 3, '/': 3, '(': 0, ')': 0}` (the
Python dict raises `KeyError` on any other key; the converters only ever look
up tokens drawn from this six-element alphabet, where the two bracket entries
are 0, so the total function below agrees with the source on every lookup it
performs). -/
def precedence (t : String) : Nat :=
  if t = "+" then 2
  else if t = "-" then 2
  else if t = "*" then 3
  else if t = "/" then 3
  else 0

/-- The operator `while` loop of `infix_to_postfix`: pop while the stack top
has precedence `≥ p`.  Returns the popped prefix (in pop order) and the
remaining stack. -/
def popWhileGE (p : Nat) : List String → List String × List String
  | [] => ([], [])
  | o :: st =>
    if p ≤ precedence o then
      let r := popWhileGE p st
      (o :: r.1, r.2)
    else ([], o :: st)

/-- The operator `while` loop of `infix_to_prefix`: pop while the stack top
has precedence strictly `> p`. -/
def popWhileGT (p : Nat) : List String → List String × List String
  | [] => ([], [])
  | o :: st =>
    if p < precedence o then
      let r := popWhileGT p st
      (o :: r.1, r.2)
    else ([], o :: st)

/-- The `')'` handling of `infix_to_postfix`: pop to the output until a
`'('` is found (discarding it); `none` models the `ValueError` raised when
the stack empties first. -/
def popUntilLParen : List String → Option (List String × List String)
  | [] => none
  | o :: st =>
    if o = "(" then some ([], st)
    else
      match popUntilLParen st with
      | none => none
      | some r => some (o :: r.1, r.2)

/-- The `'('` handling of the reversed scan in `infix_to_prefix`: pop until a
`')'` is found. -/
def popUntilRParen : List String → Option (List String × List String)
  | [] => none
  | o :: st =>
    if o = ")" then some ([], st)
    else
      match popUntilRParen st with
      | none => none
      | some r => some (o :: r.1, r.2)

/-- The token loop of `infix_to_postfix` (output list, operator stack). -/
def postfixLoop : List String → List String → List String →
    Except String (List String × List String)
  | [], out, st => .ok (out, st)
  | t :: ts, out, st =>
    if pyIsDigit t then postfixLoop ts (out ++ [t]) st
    else if t = "(" then postfixLoop ts out (t :: st)
    else if t = ")" then
      match popUntilLParen st with
      | none => .error "括号不匹配"
      | some r => postfixLoop ts (out ++ r.1) r.2
    else
      let r := popWhileGE (precedence t) st
      postfixLoop ts (out ++ r.1) (t :: r.2)

/-- The token loop of `infix_to_prefix` (run on the reversed token list, with
the bracket roles swapped). -/
def prefixLoop : List String → List String → List String →
    Except String (List String × List String)
  | [], out, st => .ok (out, st)
  | t :: ts, out, st =>
    if pyIsDigit t then prefixLoop ts (out ++ [t]) st
    else if t = ")" then prefixLoop ts out (t :: st)
    else if t = "(" then
      match popUntilRParen st with
      | none => .error "括号不匹配"
      | some r => prefixLoop ts (out ++ r.1) r.2
    else
      let r := popWhileGT (precedence t) st
      prefixLoop ts (out ++ r.1) (t :: r.2)

/-- The final flush of `infix_to_postfix`: a leftover `'('` raises
`ValueError`. -/
def flushNoLParen : List String → Except String (List String)
  | [] => .ok []
  | o :: st =>
    if o = "(" then .error "括号不匹配"
    else do
      let r ← flushNoLParen st
      .ok (o :: r)

/-- The final flush of `infix_to_prefix`: a leftover `')'` raises
`ValueError`. -/
def flushNoRParen : List String → Except String (List String)
  | [] => .ok []
  | o :: st =>
    if o = ")" then .error "括号不匹配"
    else do
      let r ← flushNoRParen st
      .ok (o :: r)

/-- Python `' '.join(tokens)`. -/
def pyJoin : List String → String
  | [] => ""
  | [t] => t
  | t :: ts => t ++ " " ++ pyJoin ts

/-- The function `infix_to_postfix(tokens)`: shunting-yard scan, flush, join. -/
def infix_to_postfix (tokens : List String) : Except String String := do
  let r ← postfixLoop tokens [] []
  let rest ← flushNoLParen r.2
  .ok (pyJoin (r.1 ++ rest))

/-- The function `infix_to_prefix(tokens)`: reverse the tokens, run the swapped-bracket
scan with strict precedence comparison, flush, reverse the output, join. -/
def infix_to_prefix (tokens : List String) : Except String String := do
  let r ← prefixLoop tokens.reverse [] []
  let rest ← flushNoRParen r.2
  .ok (pyJoin (r.1 ++ rest).reverse)

/-! ## Evaluators (`evaluate_postfix` lines 413–469, `evaluate_prefix`
lines 472–530) -/

/-- The failure modes of the evaluators: `malformed` for the two
`ValueError("…表达式格式无效")` sites (operand-stack underflow, or a final
stack size different from 1), `divZero` for `ZeroDivisionError`, and
`invalidOp` for `ValueError("无效的运算符")`. -/
inductive EvalErr where
  | malformed
  | divZero
  | invalidOp
deriving DecidableEq

/-- Round-half-to-even of a rational to an integer (Python's `round(x)` on an
exactly representable value). -/
def roundHalfEven (q : ℚ) : ℤ :=
  if q - ⌊q⌋ = 1 / 2 then (if ⌊q⌋ % 2 = 0 then ⌊q⌋ else ⌊q⌋ + 1)
  else round q

/-- Python `round(x, 6)`: round to six fractional digits. -/
def pyRound6 (q : ℚ) : ℚ :=
  (roundHalfEven (q * 1000000) : ℚ) / 1000000

/-- The operator dispatch shared by both evaluators, applied to the left
operand `a` and right operand `b` (`a op b`); unknown operators raise
`ValueError("无效的运算符")`. -/
def applyOp (t : String) (a b : ℚ) : Except EvalErr ℚ :=
  if t = "+" then .ok (a + b)
  else if t = "-" then .ok (a - b)
  else if t = "*" then .ok (a * b)
  else if t = "/" then
    if b = 0 then .error .divZero else .ok (pyRound6 (a / b))
  else .error .invalidOp

/-- The token loop of `evaluate_postfix`: numbers push; an operator pops `b`
first and then `a` (so the most recently pushed value is the right operand)
and pushes `a op b`; popping from a stack with fewer than two values raises
`ValueError`.  The stack head is its top. -/
def evalPostfixLoop : List String → List ℚ → Except EvalErr (List ℚ)
  | [], st => .ok st
  | t :: ts, st =>
    if pyIsDigit t then evalPostfixLoop ts ((digitsToNat t : ℚ) :: st)
    else
      match st with
      | b :: a :: st1 => do
        let r ← applyOp t a b
        evalPostfixLoop ts (r :: st1)
      | _ => .error .malformed

/-- The token loop of `evaluate_prefix` (run on the reversed token list):
numbers push; an operator pops `a` first and then `b` and pushes `a op b`. -/
def evalPrefixLoop : List String → List ℚ → Except EvalErr (List ℚ)
  | [], st => .ok st
  | t :: ts, st =>
    if pyIsDigit t then evalPrefixLoop ts ((digitsToNat t : ℚ) :: st)
    else
      match st with
      | a :: b :: st1 => do
        let r ← applyOp t a b
        evalPrefixLoop ts (r :: st1)
      | _ => .error .malformed

/-- Python's `str.split()` (split on whitespace runs, dropping empties),
as a recursion over the character list with a reversed-word buffer. -/
def splitWsAux : List Char → List Char → List String
  | [], [] => []
  | [], buf => [String.mk buf.reverse]
  | c :: cs, buf =>
    if c.isWhitespace then
      if buf.isEmpty then splitWsAux cs []
      else String.mk buf.reverse :: splitWsAux cs []
    else splitWsAux cs (c :: buf)

/-- Python `expr.split()`. -/
def pySplit (s : String) : List String := splitWsAux s.data []

/-- The function `evaluate_postfix(postfix_expr)`: split, scan left to right, and require
exactly one value to remain. -/
def evaluate_postfix (s : String) : Except EvalErr ℚ :=
  match evalPostfixLoop (pySplit s) [] with
  | .ok [r] => .ok r
  | .ok _ => .error .malformed
  | .error e => .error e

/-- The function `evaluate_prefix(prefix_expr)`: split, reverse, scan, and require exactly
one value to remain. -/
def evaluate_prefix (s : String) : Except EvalErr ℚ :=
  match evalPrefixLoop (pySplit s).reverse [] with
  | .ok [r] => .ok r
  | .ok _ => .error .malformed
  | .error e => .error e

/-! ## The integer expression grammar behind claim C1

`Parses lvl ts e` says the token list `ts` derives the parse tree `e` in the
standard precedence-and-left-associativity grammar for `+ - *` over digit
literals (level 2 = expression, level 1 = term, level 0 = factor).  Division
is excluded, matching the claim's "no division" hypothesis.  `Expr.val` is
the mathematically correct (exact integer) value; `Expr.rpn` and `Expr.pn`
are its standard postfix and prefix renderings. -/

/-- Parse trees: digit literals (kept as their source token) and the three
exact integer operations. -/
inductive Expr where
  | num (s : String)
  | add (l r : Expr)
  | sub (l r : Expr)
  | mul (l r : Expr)

/-- The mathematical value: standard integer arithmetic. -/
def Expr.val : Expr → ℤ
  | .num s => (digitsToNat s : ℤ)
  | .add l r => l.val + r.val
  | .sub l r => l.val - r.val
  | .mul l r => l.val * r.val

/-- The standard postfix (reverse Polish) rendering of a parse tree. -/
def Expr.rpn : Expr → List String
  | .num s => [s]
  | .add l r => l.rpn ++ r.rpn ++ ["+"]
  | .sub l r => l.rpn ++ r.rpn ++ ["-"]
  | .mul l r => l.rpn ++ r.rpn ++ ["*"]

/-- The standard prefix (Polish) rendering of a parse tree. -/
def Expr.pn : Expr → List String
  | .num s => [s]
  | .add l r => "+" :: (l.pn ++ r.pn)
  | .sub l r => "-" :: (l.pn ++ r.pn)
  | .mul l r => "*" :: (l.pn ++ r.pn)

/-- Every literal of the tree is a nonempty digit string. -/
def Expr.wf : Expr → Prop
  | .num s => pyIsDigit s = true
  | .add l r => l.wf ∧ r.wf
  | .sub l r => l.wf ∧ r.wf
  | .mul l r => l.wf ∧ r.wf

/-- The grammar, with the nonterminal level as an index:
`E → E + T | E - T | T`, `T → T * F | F`, `F → number | ( E )`
(level 2 = `E`, level 1 = `T`, level 0 = `F`).  It encodes standard
precedence and left-associativity over the token alphabet produced by
`tokenize`. -/
inductive Parses : Nat → List String → Expr → Prop where
  | num {s : String} : pyIsDigit s = true → Parses 0 [s] (.num s)
  | paren {ts : List String} {e : Expr} :
      Parses 2 ts e → Parses 0 ("(" :: ts ++ [")"]) e
  | factor {ts : List String} {e : Expr} : Parses 0 ts e → Parses 1 ts e
  | term {ts : List String} {e : Expr} : Parses 1 ts e → Parses 2 ts e
  | mul {ts1 ts2 : List String} {e1 e2 : Expr} :
      Parses 1 ts1 e1 → Parses 0 ts2 e2 →
      Parses 1 (ts1 ++ "*" :: ts2) (.mul e1 e2)
  | add {ts1 ts2 : List String} {e1 e2 : Expr} :
      Parses 2 ts1 e1 → Parses 1 ts2 e2 →
      Parses 2 (ts1 ++ "+" :: ts2) (.add e1 e2)
  | sub {ts1 ts2 : List String} {e1 e2 : Expr} :
      Parses 2 ts1 e1 → Parses 1 ts2 e2 →
      Parses 2 (ts1 ++ "-" :: ts2) (.sub e1 e2)

/-- The token is one of the four binary operators. -/
def isOpTok (t : String) : Prop :=
  t = "+" ∨ t = "-" ∨ t = "*" ∨ t = "/"

instance (t : String) : Decidable (isOpTok t) := by
  unfold isOpTok
  infer_instance

/-- The stack-top guard for the `≥` pop loop: the top (if any) has precedence
strictly below `p`, so the loop stops immediately. -/
def headLt (p : Nat) : List String → Prop
  | [] => True
  | x :: _ => precedence x < p

/-- The stack-top guard for the strict `>` pop loop: the top (if any) has
precedence at most `p`. -/
def headLe (p : Nat) : List String → Prop
  | [] => True
  | x :: _ => precedence x ≤ p

/-- The stack-shape threshold used in the shunting-yard invariants, per
grammar level. -/
def thresh : Nat → Nat
  | 0 => 4
  | 1 => 3
  | _ => 2

/-! ## Basic lemmas about the `Except` monad and the runners -/

@[simp] theorem ok_bind {ε α β : Type} (a : α) (f : α → Except ε β) :
    (Except.ok a : Except ε α) >>= f = f a := rfl

@[simp] theorem error_bind {ε α β : Type} (e : ε) (f : α → Except ε β) :
    (Except.error e : Except ε α) >>= f = .error e := rfl

theorem precedence_le_three (t : String) : precedence t ≤ 3 := by
  unfold precedence
  split_ifs <;> omega

theorem isOpTok.two_le {t : String} (h : isOpTok t) : 2 ≤ precedence t := by
  rcases h with rfl | rfl | rfl | rfl <;> decide

theorem isOpTok.not_digit {t : String} (h : isOpTok t) :
    pyIsDigit t = false := by
  rcases h with rfl | rfl | rfl | rfl <;> decide

theorem isOpTok.ne_lparen {t : String} (h : isOpTok t) : t ≠ "(" := by
  rcases h with rfl | rfl | rfl | rfl <;> decide

theorem isOpTok.ne_rparen {t : String} (h : isOpTok t) : t ≠ ")" := by
  rcases h with rfl | rfl | rfl | rfl <;> decide

theorem headLt_mono {p q : Nat} (hpq : p ≤ q) {st : List String}
    (h : headLt p st) : headLt q st := by
  cases st with
  | nil => trivial
  | cons x xs => exact lt_of_lt_of_le h hpq

theorem headLe_mono {p q : Nat} (hpq : p ≤ q) {st : List String}
    (h : headLe p st) : headLe q st := by
  cases st with
  | nil => trivial
  | cons x xs => exact le_trans h hpq

theorem headLe_four (st : List String) : headLe 4 st := by
  cases st with
  | nil => trivial
  | cons x xs => exact le_trans (precedence_le_three x) (by omega)

theorem headLt_of_headLe {p : Nat} {st : List String} (h : headLe p st) :
    headLt (p + 1) st := by
  cases st with
  | nil => trivial
  | cons x xs => exact Nat.lt_succ_of_le h

/-- Ops of precedence at least 4 cannot exist: such a pending-operator list
is empty. -/
theorem ops_four_nil {ops : List String}
    (h : ∀ x ∈ ops, isOpTok x ∧ 4 ≤ precedence x) : ops = [] := by
  cases ops with
  | nil => rfl
  | cons o os =>
    rcases h o (List.mem_cons_self o os) with ⟨h1, h2⟩
    exact absurd (le_trans h2 (precedence_le_three o)) (by omega)

/-- The `≥` pop loop pops exactly a block of high-precedence operators and
stops at a low-precedence top. -/
theorem popWhileGE_eq (p : Nat) (ops st : List String)
    (hops : ∀ o ∈ ops, p ≤ precedence o) (hst : headLt p st) :
    popWhileGE p (ops ++ st) = (ops, st) := by
  induction ops with
  | nil =>
    cases st with
    | nil => rfl
    | cons x xs =>
      have hx : ¬p ≤ precedence x := Nat.not_le.2 hst
      simp [popWhileGE, hx]
  | cons o os ih =>
    have h1 : p ≤ precedence o := hops o (List.mem_cons_self o os)
    have h2 := ih (fun x hx => hops x (List.mem_cons_of_mem o hx))
    simp [popWhileGE, h1, h2]

/-- The strict `>` pop loop pops exactly a block of strictly-higher
operators and stops at a top of precedence at most `p`. -/
theorem popWhileGT_eq (p : Nat) (ops st : List String)
    (hops : ∀ o ∈ ops, p < precedence o) (hst : headLe p st) :
    popWhileGT p (ops ++ st) = (ops, st) := by
  induction ops with
  | nil =>
    cases st with
    | nil => rfl
    | cons x xs =>
      have hx : ¬p < precedence x := Nat.not_lt.2 hst
      simp [popWhileGT, hx]
  | cons o os ih =>
    have h1 : p < precedence o := hops o (List.mem_cons_self o os)
    have h2 := ih (fun x hx => hops x (List.mem_cons_of_mem o hx))
    simp [popWhileGT, h1, h2]

theorem popUntilLParen_eq (ops st : List String)
    (h : ∀ o ∈ ops, o ≠ "(") :
    popUntilLParen (ops ++ "(" :: st) = some (ops, st) := by
  induction ops with
  | nil => rfl
  | cons o os ih =>
    have h1 : o ≠ "(" := h o (List.mem_cons_self o os)
    have h2 := ih (fun x hx => h x (List.mem_cons_of_mem o hx))
    simp [popUntilLParen, h1, h2]

theorem popUntilRParen_eq (ops st : List String)
    (h : ∀ o ∈ ops, o ≠ ")") :
    popUntilRParen (ops ++ ")" :: st) = some (ops, st) := by
  induction ops with
  | nil => rfl
  | cons o os ih =>
    have h1 : o ≠ ")" := h o (List.mem_cons_self o os)
    have h2 := ih (fun x hx => h x (List.mem_cons_of_mem o hx))
    simp [popUntilRParen, h1, h2]

theorem flushNoLParen_eq (ops : List String) (h : ∀ o ∈ ops, o ≠ "(") :
    flushNoLParen ops = .ok ops := by
  induction ops with
  | nil => rfl
  | cons o os ih =>
    have h1 : o ≠ "(" := h o (List.mem_cons_self o os)
    have h2 := ih (fun x hx => h x (List.mem_cons_of_mem o hx))
    simp [flushNoLParen, h1, h2]

theorem flushNoRParen_eq (ops : List String) (h : ∀ o ∈ ops, o ≠ ")") :
    flushNoRParen ops = .ok ops := by
  induction ops with
  | nil => rfl
  | cons o os ih =>
    have h1 : o ≠ ")" := h o (List.mem_cons_self o os)
    have h2 := ih (fun x hx => h x (List.mem_cons_of_mem o hx))
    simp [flushNoRParen, h1, h2]

/-- Running the postfix scan over a concatenation is running it over the
pieces in sequence. -/
theorem postfixLoop_append (xs ys : List String) : ∀ out st,
    postfixLoop (xs ++ ys) out st =
      postfixLoop xs out st >>= fun r => postfixLoop ys r.1 r.2 := by
  induction xs with
  | nil => intro out st; simp [postfixLoop]
  | cons t xs ih =>
    intro out st
    by_cases h1 : pyIsDigit t
    · simp [postfixLoop, h1, ih]
    · by_cases h2 : t = "("
      · subst h2
        simp [postfixLoop, show pyIsDigit "(" = false from rfl, ih]
      · by_cases h3 : t = ")"
        · subst h3
          simp only [List.cons_append, postfixLoop,
            show pyIsDigit ")" = false from rfl, Bool.false_eq_true,
            if_false, if_true, reduceIte]
          cases hp : popUntilLParen st with
          | none => simp [hp]
          | some r => simp [hp, ih]
        · simp [postfixLoop, h1, h2, h3, ih]

/-- Running the prefix scan over a concatenation is running it over the
pieces in sequence. -/
theorem prefixLoop_append (xs ys : List String) : ∀ out st,
    prefixLoop (xs ++ ys) out st =
      prefixLoop xs out st >>= fun r => prefixLoop ys r.1 r.2 := by
  induction xs with
  | nil => intro out st; simp [prefixLoop]
  | cons t xs ih =>
    intro out st
    by_cases h1 : pyIsDigit t
    · simp [prefixLoop, h1, ih]
    · by_cases h2 : t = ")"
      · subst h2
        simp [prefixLoop, show pyIsDigit ")" = false from rfl, ih]
      · by_cases h3 : t = "("
        · subst h3
          simp only [List.cons_append, prefixLoop,
            show pyIsDigit "(" = false from rfl, Bool.false_eq_true,
            if_false, if_true, reduceIte]
          cases hp : popUntilRParen st with
          | none => simp [hp]
          | some r => simp [hp, ih]
        · simp [prefixLoop, h1, h2, h3, ih]

/-- Shunting-yard invariant for the postfix conversion: scanning the tokens
of a level-`lvl` derivation appends its reverse-Polish rendering to the
output, except for a trailing block of pending operators (all of precedence
at least `thresh lvl`) left on top of the stack. -/
theorem postfix_run {lvl : Nat} {ts : List String} {e : Expr}
    (h : Parses lvl ts e) :
    ∀ out st, headLt (thresh lvl) st →
      ∃ o ops, postfixLoop ts out st = .ok (out ++ o, ops ++ st) ∧
        o ++ ops = e.rpn ∧ ∀ x ∈ ops, isOpTok x ∧ thresh lvl ≤ precedence x := by
  induction h with
  | num hs =>
    rename_i s
    intro out st hst
    exact ⟨[s], [], by simp [postfixLoop, hs], by simp [Expr.rpn], by simp⟩
  | paren hE ihE =>
    rename_i tsE eE
    intro out st hst
    obtain ⟨o, ops, hrun, hout, hops⟩ := ihE out ("(" :: st)
      (show precedence "(" < 2 by decide)
    have hstep : postfixLoop ("(" :: tsE ++ [")"]) out st
        = postfixLoop (tsE ++ [")"]) out ("(" :: st) := by
      simp [postfixLoop, show pyIsDigit "(" = false from rfl]
    have hne : ∀ x ∈ ops, x ≠ "(" := fun x hx => (hops x hx).1.ne_lparen
    have hclose : postfixLoop [")"] (out ++ o) (ops ++ "(" :: st)
        = .ok (out ++ o ++ ops, st) := by
      simp [postfixLoop, show pyIsDigit ")" = false from rfl,
        popUntilLParen_eq ops st hne]
    refine ⟨o ++ ops, [], ?_, by simp [hout], by simp⟩
    rw [hstep, postfixLoop_append, hrun]
    simp [hclose]
  | factor hF ihF =>
    intro out st hst
    obtain ⟨o, ops, hrun, hout, hops⟩ := ihF out st (headLt_mono (by decide) hst)
    have hnil : ops = [] := ops_four_nil hops
    subst hnil
    exact ⟨o, [], hrun, hout, by simp⟩
  | term hT ihT =>
    intro out st hst
    obtain ⟨o, ops, hrun, hout, hops⟩ := ihT out st (headLt_mono (by decide) hst)
    refine ⟨o, ops, hrun, hout, fun x hx => ⟨(hops x hx).1, ?_⟩⟩
    exact le_trans (by decide) (hops x hx).2
  | mul hT hF ihT ihF =>
    rename_i ts1 ts2 e1 e2
    intro out st hst
    obtain ⟨o1, ops1, hrun1, hout1, hops1⟩ := ihT out st hst
    have hpop : popWhileGE (precedence "*") (ops1 ++ st) = (ops1, st) := by
      rw [show precedence "*" = 3 from rfl]
      exact popWhileGE_eq 3 ops1 st (fun o ho => (hops1 o ho).2) hst
    have hstep : postfixLoop ("*" :: ts2) (out ++ o1) (ops1 ++ st)
        = postfixLoop ts2 (out ++ o1 ++ ops1) ("*" :: st) := by
      simp [postfixLoop, show pyIsDigit "*" = false from rfl, hpop]
    obtain ⟨o2, ops2, hrun2, hout2, hops2⟩ := ihF (out ++ o1 ++ ops1)
      ("*" :: st) (show precedence "*" < 4 by decide)
    have h2nil : ops2 = [] := ops_four_nil hops2
    subst h2nil
    refine ⟨o1 ++ ops1 ++ o2, ["*"], ?_, ?_, ?_⟩
    · rw [postfixLoop_append, hrun1]
      simp only [ok_bind]
      rw [hstep, hrun2]
      simp
    · simp only [List.append_nil] at hout2
      simp [Expr.rpn, ← hout1, hout2, List.append_assoc]
    · intro x hx
      simp only [List.mem_singleton] at hx
      subst hx
      exact ⟨Or.inr (Or.inr (Or.inl rfl)), by decide⟩
  | add hE hT ihE ihT =>
    rename_i ts1 ts2 e1 e2
    intro out st hst
    obtain ⟨o1, ops1, hrun1, hout1, hops1⟩ := ihE out st hst
    have hpop : popWhileGE (precedence "+") (ops1 ++ st) = (ops1, st) := by
      rw [show precedence "+" = 2 from rfl]
      exact popWhileGE_eq 2 ops1 st (fun o ho => (hops1 o ho).2) hst
    have hstep : postfixLoop ("+" :: ts2) (out ++ o1) (ops1 ++ st)
        = postfixLoop ts2 (out ++ o1 ++ ops1) ("+" :: st) := by
      simp [postfixLoop, show pyIsDigit "+" = false from rfl, hpop]
    obtain ⟨o2, ops2, hrun2, hout2, hops2⟩ := ihT (out ++ o1 ++ ops1)
      ("+" :: st) (show precedence "+" < 3 by decide)
    refine ⟨o1 ++ ops1 ++ o2, ops2 ++ ["+"], ?_, ?_, ?_⟩
    · rw [postfixLoop_append, hrun1]
      simp only [ok_bind]
      rw [hstep, hrun2]
      simp
    · simp [Expr.rpn, ← hout1, ← hout2, List.append_assoc]
    · intro x hx
      rcases List.mem_append.1 hx with hx | hx
      · exact ⟨(hops2 x hx).1, le_trans (by decide) (hops2 x hx).2⟩
      · simp only [List.mem_singleton] at hx
        subst hx
        exact ⟨Or.inl rfl, by decide⟩
  | sub hE hT ihE ihT =>
    rename_i ts1 ts2 e1 e2
    intro out st hst
    obtain ⟨o1, ops1, hrun1, hout1, hops1⟩ := ihE out st hst
    have hpop : popWhileGE (precedence "-") (ops1 ++ st) = (ops1, st) := by
      rw [show precedence "-" = 2 from rfl]
      exact popWhileGE_eq 2 ops1 st (fun o ho => (hops1 o ho).2) hst
    have hstep : postfixLoop ("-" :: ts2) (out ++ o1) (ops1 ++ st)
        = postfixLoop ts2 (out ++ o1 ++ ops1) ("-" :: st) := by
      simp [postfixLoop, show pyIsDigit "-" = false from rfl, hpop]
    obtain ⟨o2, ops2, hrun2, hout2, hops2⟩ := ihT (out ++ o1 ++ ops1)
      ("-" :: st) (show precedence "-" < 3 by decide)
    refine ⟨o1 ++ ops1 ++ o2, ops2 ++ ["-"], ?_, ?_, ?_⟩
    · rw [postfixLoop_append, hrun1]
      simp only [ok_bind]
      rw [hstep, hrun2]
      simp
    · simp [Expr.rpn, ← hout1, ← hout2, List.append_assoc]
    · intro x hx
      rcases List.mem_append.1 hx with hx | hx
      · exact ⟨(hops2 x hx).1, le_trans (by decide) (hops2 x hx).2⟩
      · simp only [List.mem_singleton] at hx
        subst hx
        exact ⟨Or.inr (Or.inl rfl), by decide⟩

/-- Shunting-yard invariant for the prefix conversion: scanning the REVERSED
tokens of a level-`lvl` derivation (with bracket roles swapped and the strict
`>` comparison) appends the reverse of its Polish rendering to the output,
except for a trailing block of pending operators left on top of the stack. -/
theorem prefix_run {lvl : Nat} {ts : List String} {e : Expr}
    (h : Parses lvl ts e) :
    ∀ out st, headLe (thresh lvl) st →
      ∃ o ops, prefixLoop ts.reverse out st = .ok (out ++ o, ops ++ st) ∧
        o ++ ops = e.pn.reverse ∧
        ∀ x ∈ ops, isOpTok x ∧ thresh lvl ≤ precedence x := by
  induction h with
  | num hs =>
    rename_i s
    intro out st hst
    exact ⟨[s], [], by simp [prefixLoop, hs], by simp [Expr.pn], by simp⟩
  | paren hE ihE =>
    rename_i tsE eE
    intro out st hst
    obtain ⟨o, ops, hrun, hout, hops⟩ := ihE out (")" :: st)
      (show precedence ")" ≤ 2 by decide)
    have hrev : ("(" :: tsE ++ [")"]).reverse = ")" :: (tsE.reverse ++ ["("])
        := by simp
    have hstep : prefixLoop (")" :: (tsE.reverse ++ ["("])) out st
        = prefixLoop (tsE.reverse ++ ["("]) out (")" :: st) := by
      simp [prefixLoop, show pyIsDigit ")" = false from rfl]
    have hne : ∀ x ∈ ops, x ≠ ")" := fun x hx => (hops x hx).1.ne_rparen
    have hclose : prefixLoop ["("] (out ++ o) (ops ++ ")" :: st)
        = .ok (out ++ o ++ ops, st) := by
      simp [prefixLoop, show pyIsDigit "(" = false from rfl,
        popUntilRParen_eq ops st hne]
    refine ⟨o ++ ops, [], ?_, by simp [hout], by simp⟩
    rw [hrev, hstep, prefixLoop_append, hrun]
    simp [hclose]
  | factor hF ihF =>
    intro out st hst
    obtain ⟨o, ops, hrun, hout, hops⟩ := ihF out st (headLe_four st)
    have hnil : ops = [] := ops_four_nil hops
    subst hnil
    exact ⟨o, [], hrun, hout, by simp⟩
  | term hT ihT =>
    intro out st hst
    obtain ⟨o, ops, hrun, hout, hops⟩ := ihT out st (headLe_mono (by decide) hst)
    refine ⟨o, ops, hrun, hout, fun x hx => ⟨(hops x hx).1, ?_⟩⟩
    exact le_trans (by decide) (hops x hx).2
  | mul hT hF ihT ihF =>
    rename_i ts1 ts2 e1 e2
    intro out st hst
    have hrev : (ts1 ++ "*" :: ts2).reverse
        = ts2.reverse ++ ("*" :: ts1.reverse) := by simp
    obtain ⟨o2, ops2, hrun2, hout2, hops2⟩ := ihF out st (headLe_four st)
    have h2nil : ops2 = [] := ops_four_nil hops2
    subst h2nil
    have hpop : popWhileGT (precedence "*") st = ([], st) := by
      rw [show precedence "*" = 3 from rfl]
      exact popWhileGT_eq 3 [] st (by simp) hst
    have hstep : prefixLoop ("*" :: ts1.reverse) (out ++ o2) st
        = prefixLoop ts1.reverse (out ++ o2) ("*" :: st) := by
      simp [prefixLoop, show pyIsDigit "*" = false from rfl, hpop]
    obtain ⟨o1, ops1, hrun1, hout1, hops1⟩ := ihT (out ++ o2) ("*" :: st)
      (show precedence "*" ≤ 3 by decide)
    refine ⟨o2 ++ o1, ops1 ++ ["*"], ?_, ?_, ?_⟩
    · rw [hrev, prefixLoop_append]
      simp only [List.nil_append] at hrun2
      rw [hrun2]
      simp only [ok_bind]
      rw [hstep, hrun1]
      simp
    · simp only [List.append_nil] at hout2
      simp [Expr.pn, ← hout1, hout2, List.append_assoc]
    · intro x hx
      rcases List.mem_append.1 hx with hx | hx
      · exact ⟨(hops1 x hx).1, (hops1 x hx).2⟩
      · simp only [List.mem_singleton] at hx
        subst hx
        exact ⟨Or.inr (Or.inr (Or.inl rfl)), by decide⟩
  | add hE hT ihE ihT =>
    rename_i ts1 ts2 e1 e2
    intro out st hst
    have hrev : (ts1 ++ "+" :: ts2).reverse
        = ts2.reverse ++ ("+" :: ts1.reverse) := by simp
    obtain ⟨o2, ops2, hrun2, hout2, hops2⟩ := ihT out st
      (headLe_mono (by decide) hst)
    have hpop : popWhileGT (precedence "+") (ops2 ++ st) = (ops2, st) := by
      rw [show precedence "+" = 2 from rfl]
      exact popWhileGT_eq 2 ops2 st
        (fun o ho => lt_of_lt_of_le (by decide) (hops2 o ho).2) hst
    have hstep : prefixLoop ("+" :: ts1.reverse) (out ++ o2) (ops2 ++ st)
        = prefixLoop ts1.reverse (out ++ o2 ++ ops2) ("+" :: st) := by
      simp [prefixLoop, show pyIsDigit "+" = false from rfl, hpop]
    obtain ⟨o1, ops1, hrun1, hout1, hops1⟩ := ihE (out ++ o2 ++ ops2)
      ("+" :: st) (show precedence "+" ≤ 2 by decide)
    refine ⟨o2 ++ ops2 ++ o1, ops1 ++ ["+"], ?_, ?_, ?_⟩
    · rw [hrev, prefixLoop_append, hrun2]
      simp only [ok_bind]
      rw [hstep, hrun1]
      simp
    · simp [Expr.pn, ← hout1, ← hout2, List.append_assoc]
    · intro x hx
      rcases List.mem_append.1 hx with hx | hx
      · exact ⟨(hops1 x hx).1, (hops1 x hx).2⟩
      · simp only [List.mem_singleton] at hx
        subst hx
        exact ⟨Or.inl rfl, by decide⟩
  | sub hE hT ihE ihT =>
    rename_i ts1 ts2 e1 e2
    intro out st hst
    have hrev : (ts1 ++ "-" :: ts2).reverse
        = ts2.reverse ++ ("-" :: ts1.reverse) := by simp
    obtain ⟨o2, ops2, hrun2, hout2, hops2⟩ := ihT out st
      (headLe_mono (by decide) hst)
    have hpop : popWhileGT (precedence "-") (ops2 ++ st) = (ops2, st) := by
      rw [show precedence "-" = 2 from rfl]
      exact popWhileGT_eq 2 ops2 st
        (fun o ho => lt_of_lt_of_le (by decide) (hops2 o ho).2) hst
    have hstep : prefixLoop ("-" :: ts1.reverse) (out ++ o2) (ops2 ++ st)
        = prefixLoop ts1.reverse (out ++ o2 ++ ops2) ("-" :: st) := by
      simp [prefixLoop, show pyIsDigit "-" = false from rfl, hpop]
    obtain ⟨o1, ops1, hrun1, hout1, hops1⟩ := ihE (out ++ o2 ++ ops2)
      ("-" :: st) (show precedence "-" ≤ 2 by decide)
    refine ⟨o2 ++ ops2 ++ o1, ops1 ++ ["-"], ?_, ?_, ?_⟩
    · rw [hrev, prefixLoop_append, hrun2]
      simp only [ok_bind]
      rw [hstep, hrun1]
      simp
    · simp [Expr.pn, ← hout1, ← hout2, List.append_assoc]
    · intro x hx
      rcases List.mem_append.1 hx with hx | hx
      · exact ⟨(hops1 x hx).1, (hops1 x hx).2⟩
      · simp only [List.mem_singleton] at hx
        subst hx
        exact ⟨Or.inr (Or.inl rfl), by decide⟩

/-- A derivation only contains nonempty digit-string literals. -/
theorem Parses.wf_expr {lvl : Nat} {ts : List String} {e : Expr}
    (h : Parses lvl ts e) : e.wf := by
  induction h with
  | num hs => exact hs
  | paren _ ih => exact ih
  | factor _ ih => exact ih
  | term _ ih => exact ih
  | mul _ _ ih1 ih2 => exact ⟨ih1, ih2⟩
  | add _ _ ih1 ih2 => exact ⟨ih1, ih2⟩
  | sub _ _ ih1 ih2 => exact ⟨ih1, ih2⟩

/-- On a full parse, `infix_to_postfix` produces exactly the joined
reverse-Polish rendering of the parse tree. -/
theorem toPostfix_rpn {ts : List String} {e : Expr} (h : Parses 2 ts e) :
    infix_to_postfix ts = .ok (pyJoin e.rpn) := by
  obtain ⟨o, ops, hrun, hout, hops⟩ := postfix_run h [] [] trivial
  simp only [List.nil_append, List.append_nil] at hrun
  have hflush : flushNoLParen ops = .ok ops :=
    flushNoLParen_eq ops (fun x hx => (hops x hx).1.ne_lparen)
  simp [ infix_to_postfix, hrun, hflush, hout]

/-- On a full parse, `infix_to_prefix` produces exactly the joined Polish
rendering of the parse tree. -/
theorem toPrefix_pn {ts : List String} {e : Expr} (h : Parses 2 ts e) :
    infix_to_prefix ts = .ok (pyJoin e.pn) := by
  obtain ⟨o, ops, hrun, hout, hops⟩ := prefix_run h [] [] trivial
  simp only [List.nil_append, List.append_nil] at hrun
  have hflush : flushNoRParen ops = .ok ops :=
    flushNoRParen_eq ops (fun x hx => (hops x hx).1.ne_rparen)
  simp [ infix_to_prefix, hrun, hflush]
  rw [← List.reverse_append, hout, List.reverse_reverse]

/-- The postfix evaluator folds the reverse-Polish rendering of a tree into
its exact value, over any stack and continuation. -/
theorem rpn_eval (e : Expr) : e.wf → ∀ rest st,
    evalPostfixLoop (e.rpn ++ rest) st
      = evalPostfixLoop rest ((e.val : ℚ) :: st) := by
  induction e with
  | num s =>
    intro hw rest st
    have hw2 : pyIsDigit s = true := hw
    simp [Expr.rpn, Expr.val, evalPostfixLoop, hw2]
  | add l r ihl ihr =>
    intro hw rest st
    obtain ⟨hwl, hwr⟩ := hw
    simp only [Expr.rpn, List.append_assoc, List.cons_append, ihl hwl,
      ihr hwr, List.nil_append]
    simp [evalPostfixLoop, show pyIsDigit "+" = false from rfl, applyOp,
      Expr.val]
  | sub l r ihl ihr =>
    intro hw rest st
    obtain ⟨hwl, hwr⟩ := hw
    simp only [Expr.rpn, List.append_assoc, List.cons_append, ihl hwl,
      ihr hwr, List.nil_append]
    simp [evalPostfixLoop, show pyIsDigit "-" = false from rfl, applyOp,
      Expr.val]
  | mul l r ihl ihr =>
    intro hw rest st
    obtain ⟨hwl, hwr⟩ := hw
    simp only [Expr.rpn, List.append_assoc, List.cons_append, ihl hwl,
      ihr hwr, List.nil_append]
    simp [evalPostfixLoop, show pyIsDigit "*" = false from rfl, applyOp,
      Expr.val]

/-- The prefix evaluator folds the REVERSED Polish rendering of a tree into
its exact value, over any stack and continuation. -/
theorem pn_eval (e : Expr) : e.wf → ∀ rest st,
    evalPrefixLoop (e.pn.reverse ++ rest) st
      = evalPrefixLoop rest ((e.val : ℚ) :: st) := by
  induction e with
  | num s =>
    intro hw rest st
    have hw2 : pyIsDigit s = true := hw
    simp [Expr.pn, Expr.val, evalPrefixLoop, hw2]
  | add l r ihl ihr =>
    intro hw rest st
    obtain ⟨hwl, hwr⟩ := hw
    simp only [Expr.pn, List.reverse_cons, List.reverse_append,
      List.append_assoc, List.cons_append, List.nil_append, ihr hwr, ihl hwl]
    simp [evalPrefixLoop, show pyIsDigit "+" = false from rfl, applyOp,
      Expr.val]
  | sub l r ihl ihr =>
    intro hw rest st
    obtain ⟨hwl, hwr⟩ := hw
    simp only [Expr.pn, List.reverse_cons, List.reverse_append,
      List.append_assoc, List.cons_append, List.nil_append, ihr hwr, ihl hwl]
    simp [evalPrefixLoop, show pyIsDigit "-" = false from rfl, applyOp,
      Expr.val]
  | mul l r ihl ihr =>
    intro hw rest st
    obtain ⟨hwl, hwr⟩ := hw
    simp only [Expr.pn, List.reverse_cons, List.reverse_append,
      List.append_assoc, List.cons_append, List.nil_append, ihr hwr, ihl hwl]
    simp [evalPrefixLoop, show pyIsDigit "*" = false from rfl, applyOp,
      Expr.val]

/-! ## `' '.join` / `str.split()` round trip on wellformed token lists -/

theorem strData_append (a b : String) : (a ++ b).data = a.data ++ b.data := by
  cases a
  cases b
  rfl

theorem strMk_data (t : String) : String.mk t.data = t := by
  cases t
  rfl

/-- A digit character is not whitespace. -/
theorem isDigitChar_not_ws {c : Char} (h : isDigitChar c = true) :
    c.isWhitespace = false := by
  simp only [Char.isWhitespace, Bool.or_eq_false_iff]
  refine ⟨⟨⟨?_, ?_⟩, ?_⟩, ?_⟩ <;>
    · simp only [decide_eq_false_iff_not]
      rintro rfl
      exact absurd h (by decide)

/-- A token is splitter-proof: it has at least one character and none of them
is whitespace. -/
def goodTok (t : String) : Prop :=
  t.data ≠ [] ∧ ∀ c ∈ t.data, c.isWhitespace = false

theorem goodTok_of_digits {t : String} (h : pyIsDigit t = true) : goodTok t := by
  have h2 := h
  simp only [pyIsDigit, Bool.and_eq_true, Bool.not_eq_true',
    List.all_eq_true] at h2
  obtain ⟨h3, h4⟩ := h2
  constructor
  · intro hnil
    rw [hnil] at h3
    exact absurd h3 (by decide)
  · exact fun c hc => isDigitChar_not_ws (h4 c hc)

theorem goodTok_op {t : String} (h : isOpTok t) : goodTok t := by
  rcases h with rfl | rfl | rfl | rfl <;> exact ⟨by decide, by decide⟩

/-- Scanning a whitespace-free chunk just accumulates it in the buffer. -/
theorem splitWsAux_push (w : List Char)
    (hw : ∀ c ∈ w, c.isWhitespace = false) : ∀ cs buf,
    splitWsAux (w ++ cs) buf = splitWsAux cs (w.reverse ++ buf) := by
  induction w with
  | nil => intro cs buf; simp
  | cons c w ih =>
    intro cs buf
    have hc : c.isWhitespace = false := hw c (List.mem_cons_self c w)
    have ih2 := ih (fun x hx => hw x (List.mem_cons_of_mem c hx)) cs (c :: buf)
    simp [splitWsAux, hc, ih2]

/-- Splitting the space-join of splitter-proof tokens recovers the tokens. -/
theorem pySplit_pyJoin : ∀ l : List String, (∀ t ∈ l, goodTok t) →
    pySplit (pyJoin l) = l := by
  intro l
  induction l with
  | nil => intro _; rfl
  | cons t ts ih =>
    intro h
    obtain ⟨hne, hnw⟩ := h t (List.mem_cons_self t ts)
    cases ts with
    | nil =>
      show splitWsAux (pyJoin [t]).data [] = [t]
      have h1 := splitWsAux_push t.data hnw [] []
      simp only [List.append_nil] at h1
      have hrev : t.data.reverse ≠ [] := by simpa using hne
      show splitWsAux t.data [] = [t]
      rw [h1]
      cases hb : t.data.reverse with
      | nil => exact absurd hb hrev
      | cons c cs =>
        have : splitWsAux [] (c :: cs) = [String.mk (c :: cs).reverse] := rfl
        rw [this, ← hb, List.reverse_reverse, strMk_data]
    | cons t2 ts2 =>
      show splitWsAux (pyJoin (t :: t2 :: ts2)).data [] = t :: t2 :: ts2
      have hjoin : (pyJoin (t :: t2 :: ts2)).data
          = t.data ++ (' ' :: (pyJoin (t2 :: ts2)).data) := by
        show (t ++ " " ++ pyJoin (t2 :: ts2)).data = _
        rw [strData_append, strData_append]
        simp
      rw [hjoin, splitWsAux_push t.data hnw, List.append_nil]
      have hrevne : t.data.reverse.isEmpty = false := by
        simp [List.isEmpty_iff]
        simpa using hne
      have hstep : splitWsAux (' ' :: (pyJoin (t2 :: ts2)).data)
          t.data.reverse
          = String.mk t.data.reverse.reverse
            :: splitWsAux (pyJoin (t2 :: ts2)).data [] := by
        simp [splitWsAux, hrevne]
      rw [hstep, List.reverse_reverse, strMk_data]
      have := ih (fun x hx => h x (List.mem_cons_of_mem t hx))
      rw [show splitWsAux (pyJoin (t2 :: ts2)).data [] =
        pySplit (pyJoin (t2 :: ts2)) from rfl, this]

/-- Every token of a wellformed tree's reverse-Polish rendering is
splitter-proof. -/
theorem rpn_good (e : Expr) : e.wf → ∀ t ∈ e.rpn, goodTok t := by
  induction e with
  | num s =>
    intro hw t ht
    simp only [Expr.rpn, List.mem_singleton] at ht
    subst ht
    exact goodTok_of_digits hw
  | add l r ihl ihr =>
    intro hw t ht
    simp only [Expr.rpn, List.append_assoc, List.mem_append,
      List.mem_singleton] at ht
    rcases ht with ht | ht | ht
    · exact ihl hw.1 t ht
    · exact ihr hw.2 t ht
    · subst ht; exact goodTok_op (Or.inl rfl)
  | sub l r ihl ihr =>
    intro hw t ht
    simp only [Expr.rpn, List.append_assoc, List.mem_append,
      List.mem_singleton] at ht
    rcases ht with ht | ht | ht
    · exact ihl hw.1 t ht
    · exact ihr hw.2 t ht
    · subst ht; exact goodTok_op (Or.inr (Or.inl rfl))
  | mul l r ihl ihr =>
    intro hw t ht
    simp only [Expr.rpn, List.append_assoc, List.mem_append,
      List.mem_singleton] at ht
    rcases ht with ht | ht | ht
    · exact ihl hw.1 t ht
    · exact ihr hw.2 t ht
    · subst ht; exact goodTok_op (Or.inr (Or.inr (Or.inl rfl)))

/-- Every token of a wellformed tree's Polish rendering is splitter-proof. -/
theorem pn_good (e : Expr) : e.wf → ∀ t ∈ e.pn, goodTok t := by
  induction e with
  | num s =>
    intro hw t ht
    simp only [Expr.pn, List.mem_singleton] at ht
    subst ht
    exact goodTok_of_digits hw
  | add l r ihl ihr =>
    intro hw t ht
    simp only [Expr.pn, List.mem_cons, List.mem_append] at ht
    rcases ht with ht | ht | ht
    · subst ht; exact goodTok_op (Or.inl rfl)
    · exact ihl hw.1 t ht
    · exact ihr hw.2 t ht
  | sub l r ihl ihr =>
    intro hw t ht
    simp only [Expr.pn, List.mem_cons, List.mem_append] at ht
    rcases ht with ht | ht | ht
    · subst ht; exact goodTok_op (Or.inr (Or.inl rfl))
    · exact ihl hw.1 t ht
    · exact ihr hw.2 t ht
  | mul l r ihl ihr =>
    intro hw t ht
    simp only [Expr.pn, List.mem_cons, List.mem_append] at ht
    rcases ht with ht | ht | ht
    · subst ht; exact goodTok_op (Or.inr (Or.inr (Or.inl rfl)))
    · exact ihl hw.1 t ht
    · exact ihr hw.2 t ht

/-- Evaluating the joined reverse-Polish rendering of a wellformed parse tree
yields its exact value. -/
theorem evalPost_rpn {e : Expr} (hw : e.wf) :
    evaluate_postfix (pyJoin e.rpn) = .ok ((e.val : ℚ)) := by
  have hsplit : pySplit (pyJoin e.rpn) = e.rpn :=
    pySplit_pyJoin _ (rpn_good e hw)
  have hrun := rpn_eval e hw [] []
  rw [List.append_nil] at hrun
  simp only [evalPostfixLoop] at hrun
  simp [ evaluate_postfix, hsplit, hrun]

/-- Evaluating the joined Polish rendering of a wellformed parse tree yields
its exact value. -/
theorem evalPre_pn {e : Expr} (hw : e.wf) :
    evaluate_prefix (pyJoin e.pn) = .ok ((e.val : ℚ)) := by
  have hsplit : pySplit (pyJoin e.pn) = e.pn :=
    pySplit_pyJoin _ (pn_good e hw)
  have hrun := pn_eval e hw [] []
  rw [List.append_nil] at hrun
  simp only [evalPrefixLoop] at hrun
  simp [ evaluate_prefix, hsplit, hrun]

/-- C1: for every valid integer-only division-free infix expression (a string
that tokenizes to a token list deriving a parse tree `e` in the standard
precedence/left-associativity grammar), converting to postfix and evaluating,
and converting to prefix and evaluating, both succeed and both return the
mathematically correct exact value `e.val`. -/
theorem C1_pipeline_correct {s : String} {ts : List String} {e : Expr}
    (htok : tokenize s = .ok ts) (hparse : Parses 2 ts e) :
    ∃ post pre : String,
      infix_to_postfix ts = .ok post ∧ infix_to_prefix ts = .ok pre ∧
      evaluate_postfix post = .ok ((e.val : ℚ)) ∧
      evaluate_prefix pre = .ok ((e.val : ℚ)) :=
  ⟨pyJoin e.rpn, pyJoin e.pn, toPostfix_rpn hparse, toPrefix_pn hparse,
    evalPost_rpn hparse.wf_expr, evalPre_pn hparse.wf_expr⟩

/-- Witness for C1 at the concrete expression `"3+4*2"`. -/
theorem C1_pipeline_correct_witness :
    ∃ post pre : String,
      infix_to_postfix ["3", "+", "4", "*", "2"] = .ok post ∧
      infix_to_prefix ["3", "+", "4", "*", "2"] = .ok pre ∧
      evaluate_postfix post = .ok 11 ∧
      evaluate_prefix pre = .ok 11 := by
  have hparse : Parses 2 ["3", "+", "4", "*", "2"]
      (Expr.add (Expr.num "3") (Expr.mul (Expr.num "4") (Expr.num "2"))) :=
    Parses.add (Parses.term (Parses.factor (Parses.num (by decide))))
      (Parses.mul (Parses.factor (Parses.num (by decide)))
        (Parses.num (by decide)))
  have h := @C1_pipeline_correct "3+4*2" ["3", "+", "4", "*", "2"]
    (Expr.add (Expr.num "3") (Expr.mul (Expr.num "4") (Expr.num "2")))
    rfl hparse
  have hval : ((Expr.add (Expr.num "3")
      (Expr.mul (Expr.num "4") (Expr.num "2"))).val : ℚ) = 11 := by
    norm_num [Expr.val, show digitsToNat "3" = 3 from rfl,
      show digitsToNat "4" = 4 from rfl, show digitsToNat "2" = 2 from rfl]
  rw [hval] at h
  exact h

/-! ## Concrete runs used by claims C3, C6 and C10 -/

theorem eval_post_342 : evaluate_postfix "3 4 2 * +" = .ok 11 := by
  have h : pySplit "3 4 2 * +" = ["3", "4", "2", "*", "+"] := rfl
  simp [ evaluate_postfix, h, evalPostfixLoop, applyOp,
    show pyIsDigit "3" = true from rfl, show pyIsDigit "4" = true from rfl,
    show pyIsDigit "2" = true from rfl, show pyIsDigit "*" = false from rfl,
    show pyIsDigit "+" = false from rfl, show digitsToNat "3" = 3 from rfl,
    show digitsToNat "4" = 4 from rfl, show digitsToNat "2" = 2 from rfl]
  norm_num

theorem eval_pre_342 : evaluate_prefix "+ 3 * 4 2" = .ok 11 := by
  have h : (pySplit "+ 3 * 4 2").reverse = ["2", "4", "*", "3", "+"] := rfl
  simp [ evaluate_prefix, h, evalPrefixLoop, applyOp,
    show pyIsDigit "3" = true from rfl, show pyIsDigit "4" = true from rfl,
    show pyIsDigit "2" = true from rfl, show pyIsDigit "*" = false from rfl,
    show pyIsDigit "+" = false from rfl, show digitsToNat "3" = 3 from rfl,
    show digitsToNat "4" = 4 from rfl, show digitsToNat "2" = 2 from rfl]
  norm_num

/-- C3 as written is false: the conversions do produce `"3 4 2 * +"` and
`"+ 3 * 4 2"`, but evaluating them returns 11 (the correct value of
`3+4*2`), not 10. -/
theorem C3_counterexample :
    evaluate_postfix "3 4 2 * +" ≠ .ok 10 ∧
    evaluate_prefix "+ 3 * 4 2" ≠ .ok 10 := by
  constructor
  · intro h
    rw [eval_post_342] at h
    have : (11 : ℚ) = 10 := Except.ok.inj h
    norm_num at this
  · intro h
    rw [eval_pre_342] at h
    have : (11 : ℚ) = 10 := Except.ok.inj h
    norm_num at this

/-- C3 amended: for `"3+4*2"` the postfix conversion is `"3 4 2 * +"` and
evaluates to 11, and the prefix conversion is `"+ 3 * 4 2"` and evaluates
to 11. -/
theorem C3_example_value :
    tokenize "3+4*2" = .ok ["3", "+", "4", "*", "2"] ∧
    infix_to_postfix ["3", "+", "4", "*", "2"] = .ok "3 4 2 * +" ∧
    evaluate_postfix "3 4 2 * +" = .ok 11 ∧
    infix_to_prefix ["3", "+", "4", "*", "2"] = .ok "+ 3 * 4 2" ∧
    evaluate_prefix "+ 3 * 4 2" = .ok 11 :=
  ⟨rfl, rfl, eval_post_342, rfl, eval_pre_342⟩

/-! ## Claim C2: where the implicit zero is inserted -/

/-- C2 as written is false: after `'*'` (or `'-'`, `'/'`) the tokenizer does
NOT emit an implicit `"0"` (the source only checks `tokens[-1] in '(+'`), and
such a unary minus IS then rejected by `validate_expression` as a misplaced
operator. -/
theorem C2_counterexample :
    tokenize "2*-3" = .ok ["2", "*", "-", "3"] ∧
    "0" ∉ ["2", "*", "-", "3"] ∧
    validate_expression ["2", "*", "-", "3"] = .error (.misplacedOp 3) :=
  ⟨rfl, by decide, rfl⟩

/-- C2 amended: the tokenizer inserts the implicit `"0"` before a `'-'`
exactly at position 0 of the stripped expression, or when the digit buffer is
empty and the token list is empty or ends in `"("` or `"+"` — so after `'('`
(including the full-width bracket, which is normalized first) and after
`'+'`, but NOT after `'-'`, `'*'` or `'/'`; in the latter cases the validator
rejects the unary minus as a misplaced operator. -/
theorem C2_zero_insertion :
    tokenize "-3" = .ok ["0", "-", "3"] ∧
    (∀ c ∈ ['+', '-', '*', '/', '(', '（'],
      tokenize (String.mk ['1', c, '-', '3']) =
        .ok (["1",
            if isBracketChar c then mapBracket c else String.singleton c]
          ++ (if c = '+' ∨ c = '(' ∨ c = '（' then ["0"] else [])
          ++ ["-", "3"])) ∧
    (∀ c ∈ ['-', '*', '/'],
      validate_expression ["1", String.singleton c, "-", "3"]
        = .error (.misplacedOp 3)) := by
  refine ⟨rfl, ?_, ?_⟩
  · intro c hc
    fin_cases hc <;> rfl
  · intro c hc
    fin_cases hc <;> rfl

/-- Witness for C2 at `c = '*'`. -/
theorem C2_zero_insertion_witness :
    tokenize "1*-3" = .ok ["1", "*", "-", "3"] ∧
    validate_expression ["1", "*", "-", "3"] = .error (.misplacedOp 3) := by
  have h := C2_zero_insertion
  have h1 := h.2.1 '*' (by decide)
  have h2 := h.2.2 '*' (by decide)
  exact ⟨h1, h2⟩

/-! ## Claim C4: the asymmetric precedence comparisons -/

/-- C4: the table is `+,- = 2`, `*,/ = 3`, parens `0`; the postfix scan pops
with `≥` (so it pops an equal-precedence stack top and keeps popping), the
prefix scan pops with strict `>` (so it leaves an equal-precedence stack top
in place); a paren on top of the stack is never popped by either precedence
comparison (only by the explicit closing-bracket handling); the operator case
of each scan is exactly its pop-loop followed by a push, and the prefix
converter runs on the reversed token list and reverses its output. -/
theorem C4_precedence_comparisons :
    (precedence "+" = 2 ∧ precedence "-" = 2 ∧ precedence "*" = 3 ∧
      precedence "/" = 3 ∧ precedence "(" = 0 ∧ precedence ")" = 0) ∧
    (∀ t o st, precedence o = precedence t →
      popWhileGE (precedence t) (o :: st)
        = (o :: (popWhileGE (precedence t) st).1,
            (popWhileGE (precedence t) st).2)) ∧
    (∀ t o st, precedence o = precedence t →
      popWhileGT (precedence t) (o :: st) = ([], o :: st)) ∧
    (∀ t st, isOpTok t →
      popWhileGE (precedence t) ("(" :: st) = ([], "(" :: st)) ∧
    (∀ t st, isOpTok t →
      popWhileGT (precedence t) (")" :: st) = ([], ")" :: st)) ∧
    (∀ t ts out st, isOpTok t →
      postfixLoop (t :: ts) out st
        = postfixLoop ts (out ++ (popWhileGE (precedence t) st).1)
            (t :: (popWhileGE (precedence t) st).2)) ∧
    (∀ t ts out st, isOpTok t →
      prefixLoop (t :: ts) out st
        = prefixLoop ts (out ++ (popWhileGT (precedence t) st).1)
            (t :: (popWhileGT (precedence t) st).2)) ∧
    (∀ ts, infix_to_prefix ts
        = prefixLoop ts.reverse [] [] >>= fun r =>
            flushNoRParen r.2 >>= fun rest =>
              .ok (pyJoin (r.1 ++ rest).reverse)) := by
  refine ⟨⟨rfl, rfl, rfl, rfl, rfl, rfl⟩, ?_, ?_, ?_, ?_, ?_, ?_, ?_⟩
  · intro t o st h
    simp [popWhileGE, h]
  · intro t o st h
    simp [popWhileGT, h]
  · intro t st ht
    have h0 : precedence "(" = 0 := rfl
    have h2 := ht.two_le
    simp only [popWhileGE, h0]
    rw [if_neg (by omega)]
  · intro t st ht
    have h0 : precedence ")" = 0 := rfl
    have h2 := ht.two_le
    simp only [popWhileGT, h0]
    rw [if_neg (by omega)]
  · intro t ts out st ht
    simp [postfixLoop, ht.not_digit, ht.ne_lparen, ht.ne_rparen]
  · intro t ts out st ht
    simp [prefixLoop, ht.not_digit, ht.ne_lparen, ht.ne_rparen]
  · intro ts
    rfl

/-- Witness for C4 at `t = "+"`, `o = "-"` (equal precedence) and a
parenthesis below. -/
theorem C4_precedence_comparisons_witness :
    popWhileGE (precedence "+") ["-", "("] = (["-"], ["("]) ∧
    popWhileGT (precedence "+") ["-", "("] = ([], ["-", "("]) := by
  have h := C4_precedence_comparisons
  constructor
  · rw [h.2.1 "+" "-" ["("] rfl, h.2.2.2.1 "+" [] (Or.inl rfl)]
  · exact h.2.2.1 "+" "-" ["("] rfl
/-! ## Claim C5: mirrored pop order of the two evaluators -/

/-- C5: at an operator, the postfix evaluator pops `b` first then `a` (the
most recently pushed value is the right operand) and pushes `a op b`; the
prefix evaluator scans its token list reversed and pops `a` first then `b`,
also pushing `a op b`.  Consequently, for number tokens `a`, `b` the postfix
string `"a b t"` and the prefix string `"t a b"` denote the same application
`a t b`. -/
theorem C5_pop_order :
    (∀ t ts (x y : ℚ) st, pyIsDigit t = false →
      evalPostfixLoop (t :: ts) (x :: y :: st)
        = applyOp t y x >>= fun r => evalPostfixLoop ts (r :: st)) ∧
    (∀ t ts (x y : ℚ) st, pyIsDigit t = false →
      evalPrefixLoop (t :: ts) (x :: y :: st)
        = applyOp t x y >>= fun r => evalPrefixLoop ts (r :: st)) ∧
    (∀ s, evaluate_prefix s = match evalPrefixLoop (pySplit s).reverse [] with
      | .ok [r] => .ok r
      | .ok _ => .error .malformed
      | .error e => .error e) ∧
    (∀ a b t, pyIsDigit a = true → pyIsDigit b = true → isOpTok t →
      evaluate_postfix (pyJoin [a, b, t])
          = applyOp t ((digitsToNat a : ℚ)) ((digitsToNat b : ℚ)) ∧
      evaluate_prefix (pyJoin [t, a, b])
          = applyOp t ((digitsToNat a : ℚ)) ((digitsToNat b : ℚ))) := by
  refine ⟨?_, ?_, fun s => rfl, ?_⟩
  · intro t ts x y st h
    simp [evalPostfixLoop, h]
  · intro t ts x y st h
    simp [evalPrefixLoop, h]
  · intro a b t ha hb ht
    constructor
    · have hsplit : pySplit (pyJoin [a, b, t]) = [a, b, t] := by
        refine pySplit_pyJoin _ ?_
        intro u hu
        simp only [List.mem_cons, List.not_mem_nil, or_false] at hu
        rcases hu with rfl | rfl | rfl
        · exact goodTok_of_digits ha
        · exact goodTok_of_digits hb
        · exact goodTok_op ht
      simp only [ evaluate_postfix, hsplit, evalPostfixLoop, ha, hb,
        ht.not_digit, Bool.false_eq_true, if_true, if_false, reduceIte]
      cases happ : applyOp t ((digitsToNat a : ℚ)) ((digitsToNat b : ℚ)) with
      | ok r => simp [happ, evalPostfixLoop]
      | error e => simp [happ]
    · have hsplit : pySplit (pyJoin [t, a, b]) = [t, a, b] := by
        refine pySplit_pyJoin _ ?_
        intro u hu
        simp only [List.mem_cons, List.not_mem_nil, or_false] at hu
        rcases hu with rfl | rfl | rfl
        · exact goodTok_op ht
        · exact goodTok_of_digits ha
        · exact goodTok_of_digits hb
      have hrev : (pySplit (pyJoin [t, a, b])).reverse = [b, a, t] := by
        rw [hsplit]
        rfl
      simp only [ evaluate_prefix, hrev, evalPrefixLoop, ha, hb,
        ht.not_digit, Bool.false_eq_true, if_true, if_false, reduceIte]
      cases happ : applyOp t ((digitsToNat a : ℚ)) ((digitsToNat b : ℚ)) with
      | ok r => simp [happ, evalPrefixLoop]
      | error e => simp [happ]

/-- Witness for C5 with subtraction: `"7 2 -"` in postfix and `"- 7 2"` in
prefix both mean `7 - 2`. -/
theorem C5_pop_order_witness :
    evaluate_postfix "7 2 -" = .ok 5 ∧ evaluate_prefix "- 7 2" = .ok 5 := by
  have h := C5_pop_order.2.2.2 "7" "2" "-" rfl rfl (Or.inr (Or.inl rfl))
  have ha : applyOp "-" ((digitsToNat "7" : ℚ)) ((digitsToNat "2" : ℚ))
      = .ok 5 := by
    simp [applyOp, show digitsToNat "7" = 7 from rfl,
      show digitsToNat "2" = 2 from rfl]
    norm_num
  obtain ⟨h1, h2⟩ := h
  rw [show pyJoin ["7", "2", "-"] = "7 2 -" from rfl] at h1
  rw [show pyJoin ["-", "7", "2"] = "- 7 2" from rfl] at h2
  exact ⟨h1.trans ha, h2.trans ha⟩

/-! ## Claim C6: division by zero and six-digit rounding -/

/-- Round-half-to-even is within a half of its argument. -/
theorem roundHalfEven_abs (x : ℚ) : |x - (roundHalfEven x : ℚ)| ≤ 1 / 2 := by
  unfold roundHalfEven
  split_ifs with h1 h2
  · rw [show ((⌊x⌋ : ℚ)) = x - 1 / 2 by linarith]
    rw [show x - (x - 1 / 2) = 1 / 2 by ring, abs_of_pos (by norm_num)]
  · push_cast
    rw [show ((⌊x⌋ : ℚ)) = x - 1 / 2 by linarith]
    rw [show x - (x - 1 / 2 + 1) = -(1 / 2) by ring, abs_neg,
      abs_of_pos (by norm_num)]
  · exact abs_sub_round x

/-- The rounding `pyRound6` returns an integer multiple of `10 ^ (-6)` within half an ulp
of its argument: it is rounding to six fractional digits. -/
theorem pyRound6_spec (q : ℚ) : ∃ k : ℤ, pyRound6 q = (k : ℚ) / 1000000 ∧
    |q - pyRound6 q| ≤ 1 / 2000000 := by
  refine ⟨roundHalfEven (q * 1000000), rfl, ?_⟩
  have h := roundHalfEven_abs (q * 1000000)
  unfold pyRound6
  have heq : q - (roundHalfEven (q * 1000000) : ℚ) / 1000000
      = (q * 1000000 - (roundHalfEven (q * 1000000) : ℚ)) / 1000000 := by
    ring
  rw [heq, abs_div, abs_of_pos (show (0 : ℚ) < 1000000 by norm_num)]
  have h2 := (div_le_div_iff_of_pos_right
    (show (0 : ℚ) < 1000000 by norm_num)).2 h
  calc |q * 1000000 - (roundHalfEven (q * 1000000) : ℚ)| / 1000000
      ≤ (1 / 2) / 1000000 := h2
    _ = 1 / 2000000 := by norm_num

theorem eval_post_50div : evaluate_postfix "5 0 /" = .error .divZero := by
  have h : pySplit "5 0 /" = ["5", "0", "/"] := rfl
  simp [ evaluate_postfix, h, evalPostfixLoop, applyOp,
    show pyIsDigit "5" = true from rfl, show pyIsDigit "0" = true from rfl,
    show pyIsDigit "/" = false from rfl, show digitsToNat "5" = 5 from rfl,
    show digitsToNat "0" = 0 from rfl]

theorem eval_pre_50div : evaluate_prefix "/ 5 0" = .error .divZero := by
  have h : (pySplit "/ 5 0").reverse = ["0", "5", "/"] := rfl
  simp [ evaluate_prefix, h, evalPrefixLoop, applyOp,
    show pyIsDigit "5" = true from rfl, show pyIsDigit "0" = true from rfl,
    show pyIsDigit "/" = false from rfl, show digitsToNat "5" = 5 from rfl,
    show digitsToNat "0" = 0 from rfl]

theorem eval_post_6div4 : evaluate_postfix "6 4 /" = .ok (3 / 2) := by
  have h : pySplit "6 4 /" = ["6", "4", "/"] := rfl
  simp [ evaluate_postfix, h, evalPostfixLoop, applyOp, pyRound6,
    roundHalfEven, show pyIsDigit "6" = true from rfl,
    show pyIsDigit "4" = true from rfl, show pyIsDigit "/" = false from rfl,
    show digitsToNat "6" = 6 from rfl, show digitsToNat "4" = 4 from rfl]
  norm_num

/-- C6: in both evaluators, `'/'` fails with `ZeroDivisionError` exactly when
the divisor is zero; a successful division is rounded to six fractional
digits (`"6/4"` gives `1.5`); `'+'`, `'-'`, `'*'` are exact. -/
theorem C6_division_rounding :
    (∀ a b : ℚ, applyOp "+" a b = .ok (a + b) ∧
      applyOp "-" a b = .ok (a - b) ∧ applyOp "*" a b = .ok (a * b)) ∧
    (∀ a b : ℚ, applyOp "/" a b = .error .divZero ↔ b = 0) ∧
    (∀ a b : ℚ, b ≠ 0 → applyOp "/" a b = .ok (pyRound6 (a / b))) ∧
    (∀ q : ℚ, ∃ k : ℤ, pyRound6 q = (k : ℚ) / 1000000 ∧
      |q - pyRound6 q| ≤ 1 / 2000000) ∧
    (tokenize "5/0" = .ok ["5", "/", "0"] ∧
      infix_to_postfix ["5", "/", "0"] = .ok "5 0 /" ∧
      evaluate_postfix "5 0 /" = .error .divZero ∧
      infix_to_prefix ["5", "/", "0"] = .ok "/ 5 0" ∧
      evaluate_prefix "/ 5 0" = .error .divZero) ∧
    (tokenize "6/4" = .ok ["6", "/", "4"] ∧
      infix_to_postfix ["6", "/", "4"] = .ok "6 4 /" ∧
      evaluate_postfix "6 4 /" = .ok (3 / 2)) := by
  refine ⟨?_, ?_, ?_, pyRound6_spec,
    ⟨rfl, rfl, eval_post_50div, rfl, eval_pre_50div⟩,
    ⟨rfl, rfl, eval_post_6div4⟩⟩
  · intro a b
    refine ⟨?_, ?_, ?_⟩ <;> simp [applyOp]
  · intro a b
    constructor
    · intro h
      by_contra hb
      simp [applyOp, hb] at h
    · intro h
      simp [applyOp, h]
  · intro a b h
    simp [applyOp, h]

/-- Witness for C6: a zero divisor at `1/0`, a nonzero one at `6/4`, and the
rounding property at `3/2`. -/
theorem C6_division_rounding_witness :
    applyOp "/" 1 0 = .error .divZero ∧
    applyOp "/" 6 4 = .ok (pyRound6 (6 / 4)) ∧
    ∃ k : ℤ, pyRound6 (3 / 2) = (k : ℚ) / 1000000 ∧
      |(3 / 2 : ℚ) - pyRound6 (3 / 2)| ≤ 1 / 2000000 := by
  have h := C6_division_rounding
  exact ⟨(h.2.1 1 0).2 rfl, h.2.2.1 6 4 (by norm_num), h.2.2.2.1 (3 / 2)⟩

/-! ## Claim C7: evaluator malformed-expression handling -/

/-- C7: in both evaluators an operator reached with fewer than two stacked
operands fails with the malformed-expression `ValueError`; when the scan
succeeds, a final stack of exactly one value is returned and any other final
stack size fails with the malformed-expression `ValueError`. -/
theorem C7_stack_discipline :
    (∀ t ts (st : List ℚ), pyIsDigit t = false → st.length < 2 →
      evalPostfixLoop (t :: ts) st = .error .malformed) ∧
    (∀ t ts (st : List ℚ), pyIsDigit t = false → st.length < 2 →
      evalPrefixLoop (t :: ts) st = .error .malformed) ∧
    (∀ s (r : ℚ), evalPostfixLoop (pySplit s) [] = .ok [r] →
      evaluate_postfix s = .ok r) ∧
    (∀ s (st : List ℚ), evalPostfixLoop (pySplit s) [] = .ok st →
      st.length ≠ 1 → evaluate_postfix s = .error .malformed) ∧
    (∀ s (r : ℚ), evalPrefixLoop (pySplit s).reverse [] = .ok [r] →
      evaluate_prefix s = .ok r) ∧
    (∀ s (st : List ℚ), evalPrefixLoop (pySplit s).reverse [] = .ok st →
      st.length ≠ 1 → evaluate_prefix s = .error .malformed) := by
  refine ⟨?_, ?_, ?_, ?_, ?_, ?_⟩
  · intro t ts st h hlen
    match st with
    | [] => simp [evalPostfixLoop, h]
    | [x] => simp [evalPostfixLoop, h]
    | x :: y :: st1 => simp at hlen; omega
  · intro t ts st h hlen
    match st with
    | [] => simp [evalPrefixLoop, h]
    | [x] => simp [evalPrefixLoop, h]
    | x :: y :: st1 => simp at hlen; omega
  · intro s r h
    simp [ evaluate_postfix, h]
  · intro s st h hlen
    match st with
    | [] => simp [ evaluate_postfix, h]
    | [x] => simp at hlen
    | x :: y :: st1 => simp [ evaluate_postfix, h]
  · intro s r h
    simp [ evaluate_prefix, h]
  · intro s st h hlen
    match st with
    | [] => simp [ evaluate_prefix, h]
    | [x] => simp at hlen
    | x :: y :: st1 => simp [ evaluate_prefix, h]

/-- Witness for C7: an operator on an empty stack underflows, a lone number
is returned, two numbers with no operator are malformed. -/
theorem C7_stack_discipline_witness :
    evalPostfixLoop ["+"] [] = .error .malformed ∧
    evaluate_postfix "7" = .ok 7 ∧
    evaluate_postfix "7 2" = .error .malformed := by
  have hone : evalPostfixLoop (pySplit "7") [] = .ok [(7 : ℚ)] := by
    simp [show pySplit "7" = ["7"] from rfl, evalPostfixLoop,
      show pyIsDigit "7" = true from rfl, show digitsToNat "7" = 7 from rfl]
  have htwo : evalPostfixLoop (pySplit "7 2") [] = .ok [(2 : ℚ), (7 : ℚ)] := by
    simp [show pySplit "7 2" = ["7", "2"] from rfl, evalPostfixLoop,
      show pyIsDigit "7" = true from rfl, show pyIsDigit "2" = true from rfl,
      show digitsToNat "7" = 7 from rfl, show digitsToNat "2" = 2 from rfl]
  exact ⟨C7_stack_discipline.1 "+" [] [] rfl (by norm_num),
    C7_stack_discipline.2.2.1 "7" 7 hone,
    C7_stack_discipline.2.2.2.1 "7 2" [2, 7] htwo (by norm_num)⟩

/-! ## Claim C8: unbalanced-parenthesis positions -/

/-- Any index on an `.ok` result of the bracket scan is either inherited from
the initial stack or points (relative to the scanned suffix) at a `"("`. -/
theorem parenScan_ok_mem : ∀ (ts : List String) (i : Nat)
    (st0 st : List Nat), parenScan ts i st0 = .ok st →
    ∀ j ∈ st, j ∈ st0 ∨ (i ≤ j ∧ ts[j - i]? = some "(") := by
  intro ts
  induction ts with
  | nil =>
    intro i st0 st h j hj
    simp only [parenScan, Except.ok.injEq] at h
    subst h
    exact Or.inl hj
  | cons t ts ih =>
    intro i st0 st h j hj
    by_cases h1 : t = "("
    · subst h1
      simp only [parenScan, if_true, reduceIte] at h
      rcases ih (i + 1) (i :: st0) st h j hj with hmem | ⟨hle, hget⟩
      · rcases List.mem_cons.1 hmem with rfl | hmem2
        · refine Or.inr ⟨le_refl j, ?_⟩
          simp
        · exact Or.inl hmem2
      · refine Or.inr ⟨le_trans (Nat.le_succ i) hle, ?_⟩
        rw [show j - i = (j - (i + 1)) + 1 by omega]
        simpa using hget
    · by_cases h2 : t = ")"
      · subst h2
        simp only [parenScan, h1, if_false, if_true, reduceIte] at h
        match st0, h with
        | [], h => cases h
        | x :: st0extra, h =>
          rcases ih (i + 1) st0extra st h j hj with hmem | ⟨hle, hget⟩
          · exact Or.inl (List.mem_cons_of_mem x hmem)
          · refine Or.inr ⟨by omega, ?_⟩
            rw [show j - i = (j - (i + 1)) + 1 by omega]
            simpa using hget
      · simp only [parenScan, h1, h2, if_false, reduceIte] at h
        rcases ih (i + 1) st0 st h j hj with hmem | ⟨hle, hget⟩
        · exact Or.inl hmem
        · refine Or.inr ⟨by omega, ?_⟩
          rw [show j - i = (j - (i + 1)) + 1 by omega]
          simpa using hget

/-- The bracket scan keeps its index stack strictly decreasing (most recent
on top). -/
theorem parenScan_ok_desc : ∀ (ts : List String) (i : Nat)
    (st0 st : List Nat), (∀ x ∈ st0, x < i) →
    st0.Pairwise (fun a b => b < a) → parenScan ts i st0 = .ok st →
    st.Pairwise (fun a b => b < a) := by
  intro ts
  induction ts with
  | nil =>
    intro i st0 st hb hp h
    simp only [parenScan, Except.ok.injEq] at h
    subst h
    exact hp
  | cons t ts ih =>
    intro i st0 st hb hp h
    by_cases h1 : t = "("
    · subst h1
      simp only [parenScan, if_true, reduceIte] at h
      refine ih (i + 1) (i :: st0) st ?_ ?_ h
      · intro x hx
        rcases List.mem_cons.1 hx with rfl | hx2
        · omega
        · exact lt_trans (hb x hx2) (Nat.lt_succ_self i)
      · exact List.pairwise_cons.2 ⟨fun x hx => hb x hx, hp⟩
    · by_cases h2 : t = ")"
      · subst h2
        simp only [parenScan, h1, if_false, if_true, reduceIte] at h
        match st0, hb, hp, h with
        | [], _, _, h => cases h
        | x :: st0extra, hb, hp, h =>
          refine ih (i + 1) st0extra st ?_ (List.pairwise_cons.1 hp).2 h
          intro y hy
          exact lt_trans (hb y (List.mem_cons_of_mem x hy))
            (Nat.lt_succ_self i)
      · simp only [parenScan, h1, h2, if_false, reduceIte] at h
        refine ih (i + 1) st0 st ?_ hp h
        intro x hx
        exact lt_trans (hb x hx) (Nat.lt_succ_self i)

/-- An `extraRight` failure of the bracket scan points (relative to the
scanned suffix) at a `")"`. -/
theorem parenScan_err_mem : ∀ (ts : List String) (i : Nat) (st0 : List Nat)
    (p : Nat), parenScan ts i st0 = .error (.extraRight p) →
    ∃ j, p = j + 1 ∧ i ≤ j ∧ ts[j - i]? = some ")" := by
  intro ts
  induction ts with
  | nil => intro i st0 p h; cases h
  | cons t ts ih =>
    intro i st0 p h
    by_cases h1 : t = "("
    · subst h1
      simp only [parenScan, if_true, reduceIte] at h
      obtain ⟨j, hp, hle, hget⟩ := ih (i + 1) (i :: st0) p h
      refine ⟨j, hp, by omega, ?_⟩
      rw [show j - i = (j - (i + 1)) + 1 by omega]
      simpa using hget
    · by_cases h2 : t = ")"
      · subst h2
        simp only [parenScan, h1, if_false, if_true, reduceIte] at h
        match st0, h with
        | [], h =>
          refine ⟨i, ?_, le_refl i, by simp⟩
          cases h
          rfl
        | x :: st0extra, h =>
          obtain ⟨j, hp, hle, hget⟩ := ih (i + 1) st0extra p h
          refine ⟨j, hp, by omega, ?_⟩
          rw [show j - i = (j - (i + 1)) + 1 by omega]
          simpa using hget
      · simp only [parenScan, h1, h2, if_false, reduceIte] at h
        obtain ⟨j, hp, hle, hget⟩ := ih (i + 1) st0 p h
        refine ⟨j, hp, by omega, ?_⟩
        rw [show j - i = (j - (i + 1)) + 1 by omega]
        simpa using hget

/-- C8 as written is false on the "first unclosed" half: for `["(", "("]`
the validator reports position 2 — the LAST (innermost) unclosed `"("` — not
position 1, the first one. -/
theorem C8_counterexample :
    validate_expression ["(", "("] = .error (.missingRight 2) ∧
    validate_expression ["(", "("] ≠ .error (.missingRight 1) := by
  refine ⟨rfl, ?_⟩
  intro h
  have h2 : ValErr.missingRight 2 = ValErr.missingRight 1 :=
    Except.error.inj ((rfl :
      validate_expression ["(", "("] = .error (.missingRight 2)).symm.trans h)
  have h3 : (2 : Nat) = 1 := ValErr.missingRight.inj h2
  omega

/-- C8 amended: a `")"` with no open `"("` makes the whole validation fail
with `extraRight` at that `")"`'s position; when unclosed `"("` remain, the
validator reports the position of the LAST (most recently opened, i.e.
largest-indexed) unclosed `"("`, which is indeed a `"("` of the input. -/
theorem C8_unbalanced_positions :
    (∀ tokens i, parenScan tokens 0 [] = .error (.extraRight (i + 1)) →
      validate_expression tokens = .error (.extraRight (i + 1)) ∧
      tokens[i]? = some ")") ∧
    (∀ tokens j st, parenScan tokens 0 [] = .ok (j :: st) →
      validate_expression tokens = .error (.missingRight (j + 1)) ∧
      tokens[j]? = some "(" ∧ ∀ k ∈ st, k < j) := by
  constructor
  · intro tokens i h
    refine ⟨by simp [validate_expression, h], ?_⟩
    obtain ⟨j, hp, hle, hget⟩ := parenScan_err_mem tokens 0 [] (i + 1) h
    have : j = i := by omega
    subst this
    simpa using hget
  · intro tokens j st h
    refine ⟨by simp [validate_expression, h], ?_, ?_⟩
    · have := parenScan_ok_mem tokens 0 [] (j :: st) h j
        (List.mem_cons_self j st)
      rcases this with hmem | ⟨_, hget⟩
      · cases hmem
      · simpa using hget
    · have hdesc := parenScan_ok_desc tokens 0 [] (j :: st)
        (by intro x hx; cases hx) List.Pairwise.nil h
      intro k hk
      exact (List.pairwise_cons.1 hdesc).1 k hk

/-- Witness for C8 at `["(", "("]`: the scan leaves stack `[1, 0]` and the
validator reports position 2, the last unclosed `"("`. -/
theorem C8_unbalanced_positions_witness :
    validate_expression ["(", "("] = .error (.missingRight 2) ∧
    (["(", "("] : List String)[1]? = some "(" ∧ ∀ k ∈ [0], k < 1 :=
  C8_unbalanced_positions.2 ["(", "("] 1 [0] rfl

/-! ## Claim C9: which characters the tokenizer rejects -/

/-- The scan succeeds iff every remaining character is a digit, a recognized
bracket, or an operator. -/
theorem tokenizeLoop_ok_iff : ∀ (cs : List Char) (i : Nat)
    (tokens : List String) (buf : List Char),
    (∃ ts, tokenizeLoop cs i tokens buf = .ok ts) ↔
      ∀ c ∈ cs, (isDigitChar c || isBracketChar c || isOpChar c) = true := by
  intro cs
  induction cs with
  | nil =>
    intro i tokens buf
    simp [tokenizeLoop]
  | cons c cs ih =>
    intro i tokens buf
    by_cases h1 : isDigitChar c
    · simp only [tokenizeLoop, h1, if_true, reduceIte]
      rw [ih]
      simp [List.forall_mem_cons, h1]
    · by_cases h2 : isBracketChar c
      · simp only [tokenizeLoop, h1, h2, Bool.false_eq_true, if_false,
          if_true, reduceIte]
        rw [ih]
        simp [List.forall_mem_cons, h2]
      · by_cases h3 : isOpChar c
        · simp only [tokenizeLoop, h1, h2, h3, Bool.false_eq_true, if_false,
            if_true, reduceIte]
          rw [ih]
          simp [List.forall_mem_cons, h3]
        · simp only [tokenizeLoop, h1, h2, h3, Bool.false_eq_true, if_false,
            reduceIte]
          constructor
          · intro h
            obtain ⟨ts, hts⟩ := h
            cases hts
          · intro h
            have := h c (List.mem_cons_self c cs)
            simp [h1, h2, h3] at this

/-- C9 as written is false: a tab is whitespace, yet `tokenize` rejects it
with `InvalidCharacter` (only the space character `' '` is removed). -/
theorem C9_counterexample :
    tokenize "1\t2" = .error 2 ∧ (Char.isWhitespace '\t') = true :=
  ⟨rfl, rfl⟩

/-- C9 amended: `tokenize` fails with `InvalidCharacter` iff the expression
contains a character that is not a digit, not the space character `' '` (the
only whitespace that is discarded), not a recognized bracket (ASCII or
full-width), and not one of the four operators. -/
theorem C9_invalid_character (s : String) :
    (∃ ts, tokenize s = .ok ts) ↔
      ∀ c ∈ s.data, c ≠ ' ' →
        (isDigitChar c || isBracketChar c || isOpChar c) = true := by
  unfold tokenize
  rw [tokenizeLoop_ok_iff]
  constructor
  · intro h c hc hne
    exact h c (List.mem_filter.2 ⟨hc, by simpa using hne⟩)
  · intro h c hc
    obtain ⟨hc1, hc2⟩ := List.mem_filter.1 hc
    exact h c hc1 (by simpa using hc2)

/-- Witness for C9: `"1 +2"` contains only digits, a space and an operator,
so it tokenizes. -/
theorem C9_invalid_character_witness : ∃ ts, tokenize "1 +2" = .ok ts :=
  (C9_invalid_character "1 +2").mpr (by decide)

/-! ## Claim C10: non-number tokens at the evaluators' string interface -/

theorem applyOp_not_op {t : String} (h : ¬isOpTok t) (a b : ℚ) :
    applyOp t a b = .error .invalidOp := by
  unfold isOpTok at h
  push_neg at h
  obtain ⟨h1, h2, h3, h4⟩ := h
  simp [applyOp, h1, h2, h3, h4]

/-- C10 as written is false: a non-number non-operator token does not always
make the call fail with a `ValueError` — an earlier `ZeroDivisionError`
preempts it, as in `"5 0 / %"`. -/
theorem C10_counterexample :
    evaluate_postfix "5 0 / %" = .error .divZero ∧
    EvalErr.divZero ≠ EvalErr.malformed ∧
    EvalErr.divZero ≠ EvalErr.invalidOp := by
  refine ⟨?_, by decide, by decide⟩
  have h : pySplit "5 0 / %" = ["5", "0", "/", "%"] := rfl
  simp [ evaluate_postfix, h, evalPostfixLoop, applyOp,
    show pyIsDigit "5" = true from rfl, show pyIsDigit "0" = true from rfl,
    show pyIsDigit "/" = false from rfl, show pyIsDigit "%" = false from rfl,
    show digitsToNat "5" = 5 from rfl, show digitsToNat "0" = 0 from rfl]

/-- C10 amended: every whitespace-separated token that is not a nonempty
digit string takes the operator branch; if it is not one of `+ - * /` the
call fails — with the invalid-operator `ValueError` when two operands are
stacked, with the malformed-expression `ValueError` on underflow — provided
no earlier error (such as `ZeroDivisionError`) aborts the scan first.  In
particular `"-5"` and `"1.5"` are never parsed as numbers. -/
theorem C10_nonnumber_tokens :
    (∀ t ts (a b : ℚ) st, pyIsDigit t = false → ¬isOpTok t →
      evalPostfixLoop (t :: ts) (b :: a :: st) = .error .invalidOp) ∧
    (∀ t ts (a b : ℚ) st, pyIsDigit t = false → ¬isOpTok t →
      evalPrefixLoop (t :: ts) (a :: b :: st) = .error .invalidOp) ∧
    (∀ t ts (st : List ℚ), pyIsDigit t = false → st.length < 2 →
      evalPostfixLoop (t :: ts) st = .error .malformed) ∧
    (∀ t ts (st : List ℚ), pyIsDigit t = false → st.length < 2 →
      evalPrefixLoop (t :: ts) st = .error .malformed) ∧
    pyIsDigit "-5" = false ∧ pyIsDigit "1.5" = false ∧
    evaluate_postfix "-5" = .error .malformed ∧
    evaluate_postfix "3 4 -5" = .error .invalidOp ∧
    evaluate_prefix "1.5" = .error .malformed := by
  refine ⟨?_, ?_, ?_, ?_, rfl, rfl, ?_, ?_, ?_⟩
  · intro t ts a b st h1 h2
    simp [evalPostfixLoop, h1, applyOp_not_op h2]
  · intro t ts a b st h1 h2
    simp [evalPrefixLoop, h1, applyOp_not_op h2]
  · intro t ts st h hlen
    match st with
    | [] => simp [evalPostfixLoop, h]
    | [x] => simp [evalPostfixLoop, h]
    | x :: y :: st1 => simp at hlen; omega
  · intro t ts st h hlen
    match st with
    | [] => simp [evalPrefixLoop, h]
    | [x] => simp [evalPrefixLoop, h]
    | x :: y :: st1 => simp at hlen; omega
  · simp [ evaluate_postfix, show pySplit "-5" = ["-5"] from rfl,
      evalPostfixLoop, show pyIsDigit "-5" = false from rfl]
  · simp [ evaluate_postfix, show pySplit "3 4 -5" = ["3", "4", "-5"] from rfl,
      evalPostfixLoop, show pyIsDigit "3" = true from rfl,
      show pyIsDigit "4" = true from rfl,
      show pyIsDigit "-5" = false from rfl,
      applyOp_not_op (show ¬isOpTok "-5" by decide)]
  · simp [ evaluate_prefix, show (pySplit "1.5").reverse = ["1.5"] from rfl,
      evalPrefixLoop, show pyIsDigit "1.5" = false from rfl]

/-- Witness for C10 with the token `"%"`: invalid-operator on a stack of two,
underflow on an empty stack. -/
theorem C10_nonnumber_tokens_witness :
    evalPostfixLoop ["%"] [(0 : ℚ), 1] = .error .invalidOp ∧
    evalPostfixLoop ["%"] ([] : List ℚ) = .error .malformed :=
  ⟨C10_nonnumber_tokens.1 "%" [] 1 0 [] rfl (by decide),
    C10_nonnumber_tokens.2.2.1 "%" [] [] rfl (by norm_num)⟩

end InfixEval
